import Mathlib

/-!
Verification of the liveliness-token codec of `rmw_zenoh_cpp`
(`liveliness_utils.cpp`): entity/QoS encoding to key expressions,
decoding of key expressions, and the name mangler.

Strings are modelled as `List Char`; `std::size_t` values as `Nat`
(with the 64-bit bound made explicit where the C++ type matters);
functions that can exit via a C++ exception return `Except CppExc _`.
-/

namespace Liveliness

/-- C++ `std::string`, modelled as its character sequence. -/
abbrev Str : Type := List Char

/-- `static const char ADMIN_SPACE[] = "@ros2_lv";` -/
def ADMIN_SPACE : Str := "@ros2_lv".toList

/-- `static const char NODE_STR[] = "NN";` -/
def NODE_STR : Str := "NN".toList

/-- `static const char PUB_STR[] = "MP";` -/
def PUB_STR : Str := "MP".toList

/-- `static const char SUB_STR[] = "MS";` -/
def SUB_STR : Str := "MS".toList

/-- `static const char SRV_STR[] = "SS";` -/
def SRV_STR : Str := "SS".toList

/-- `static const char CLI_STR[] = "SC";` -/
def CLI_STR : Str := "SC".toList

/-- `static const char SLASH_REPLACEMENT = '%';` -/
def SLASH_REPLACEMENT : Char := '%'

/-- `static const char QOS_DELIMITER = ':';` -/
def QOS_DELIMITER : Char := ':'

/-- `static const char QOS_HISTORY_DELIMITER = ',';` -/
def QOS_HISTORY_DELIMITER : Char := ','

/-- `enum class EntityType` (liveliness_utils.hpp): the five entity kinds. -/
inductive EntityType : Type
  | Node
  | Publisher
  | Subscription
  | Service
  | Client
deriving DecidableEq, Repr

/-- The map `entity_to_str`.  In C++ it is an `unordered_map` holding all
five variants, accessed with `.at`; as every variant is present the lookup
is total. -/
def entity_to_str : EntityType → Str
  | EntityType.Node => NODE_STR
  | EntityType.Publisher => PUB_STR
  | EntityType.Subscription => SUB_STR
  | EntityType.Service => SRV_STR
  | EntityType.Client => CLI_STR

/-- The map `str_to_entity`, used via `.find`: absent keys give no value. -/
def str_to_entity (s : Str) : Option EntityType :=
  List.lookup s
    [(NODE_STR, EntityType.Node),
     (PUB_STR, EntityType.Publisher),
     (SUB_STR, EntityType.Subscription),
     (SRV_STR, EntityType.Service),
     (CLI_STR, EntityType.Client)]

/-- `mangle_name`: replace every `/` by `SLASH_REPLACEMENT` (`%`),
character by character. -/
def mangle_name (input : Str) : Str :=
  input.map (fun c => if c = '/' then SLASH_REPLACEMENT else c)

/-- `demangle_name`: replace every `SLASH_REPLACEMENT` (`%`) by `/`,
character by character. -/
def demangle_name (input : Str) : Str :=
  input.map (fun c => if c = SLASH_REPLACEMENT then '/' else c)

/-- `split_keyexpr`: literal split of `keyexpr` at every occurrence of
`delim`, keeping empty substrings (the C++ loop pushes the substring
before every delimiter occurrence and finally the trailing substring).
This is exactly `List.splitOn`. -/
def split_keyexpr (keyexpr : Str) (delim : Char := '/') : List Str :=
  keyexpr.splitOn delim

/-! ### Numeric conversions

The C++ code renders unsigned integers with `std::to_string` (or stream
insertion, which prints the same decimal digits) and reads them back with
`strtoul(_, _, 10)` / `std::stoul`.  `unsigned long` is 64 bits wide on
the target platforms. -/

/-- `ULONG_MAX` on an LP64 platform. -/
def ULONG_MAX : Nat := 2 ^ 64 - 1

/-- The character for a single decimal digit value. -/
def digitChar (n : Nat) : Char := Char.ofNat (48 + n)

/-- Digit accumulation for `std_to_string`; the fuel argument only
drives structural termination and is always sufficient. -/
def std_to_string_core : Nat → Nat → Str → Str
  | 0, _, acc => acc
  | fuel + 1, n, acc =>
    if n < 10 then digitChar n :: acc
    else std_to_string_core fuel (n / 10) (digitChar (n % 10) :: acc)

/-- `std::to_string` of an unsigned integer: its decimal digits. -/
def std_to_string (n : Nat) : Str := std_to_string_core (n + 1) n []

/-- Numeric value of a decimal digit string (most significant first). -/
def digitsToNat (ds : Str) : Nat :=
  ds.foldl (fun acc c => acc * 10 + (c.toNat - 48)) 0

/-- Is a character one of the six C whitespace characters (`isspace` in
the default locale)? -/
def isCSpace (c : Char) : Bool :=
  c = ' ' || c = '\t' || c = '\n' || c = '\x0b' || c = '\x0c' || c = '\r'

/-- Outcome of C `strtoul`: the returned value, the offset of `endptr`
from the start of the string (0 when no conversion was performed, in
which case `endptr` is reset to the start), and whether `errno` was set
to `ERANGE`. -/
structure StrtoulResult : Type where
  value : Nat
  consumed : Nat
  erange : Bool
deriving DecidableEq, Repr

/-- Digit-scanning phase of `strtoul`: `pre` characters (whitespace and
an optional sign) were already consumed, `neg` records a leading `-`. -/
def strtoulDigits (r : Str) (pre : Nat) (neg : Bool) : StrtoulResult :=
  let ds := r.takeWhile Char.isDigit
  if ds.isEmpty then ⟨0, 0, false⟩
  else
    let n := digitsToNat ds
    if ULONG_MAX < n then ⟨ULONG_MAX, pre + ds.length, true⟩
    else ⟨if neg then (2 ^ 64 - n % 2 ^ 64) % 2 ^ 64 else n, pre + ds.length, false⟩

/-- C `strtoul(s, &endptr, 10)`: skip whitespace, accept one optional
sign (a leading `-` negates the value in the unsigned return type),
then read the longest decimal-digit prefix.  Clamps to `ULONG_MAX` with
`ERANGE` when the digits denote a larger value. -/
def strtoul10 (s : Str) : StrtoulResult :=
  let rest := s.dropWhile isCSpace
  let wsLen := s.length - rest.length
  match rest with
  | c :: r =>
    if c = '-' then strtoulDigits r (wsLen + 1) true
    else if c = '+' then strtoulDigits r (wsLen + 1) false
    else strtoulDigits (c :: r) wsLen false
  | [] => strtoulDigits [] wsLen false

/-- The C++ exceptions that the modelled functions can let escape. -/
inductive CppExc : Type
  | invalid_argument
  | out_of_range
deriving DecidableEq, Repr

instance {ε α : Type} [DecidableEq ε] [DecidableEq α] : DecidableEq (Except ε α) := fun x y =>
  match x, y with
  | Except.ok a, Except.ok b =>
    if h : a = b then isTrue (by rw [h]) else isFalse (fun he => h (Except.ok.inj he))
  | Except.error a, Except.error b =>
    if h : a = b then isTrue (by rw [h]) else isFalse (fun he => h (Except.error.inj he))
  | Except.ok _, Except.error _ => isFalse (fun he => Except.noConfusion he)
  | Except.error _, Except.ok _ => isFalse (fun he => Except.noConfusion he)

/-- `std::stoul(s)`: `strtoul` plus a thrown `std::invalid_argument`
when no conversion was performed and `std::out_of_range` on `ERANGE`.
Trailing non-numeric characters are NOT rejected. -/
def stoul (s : Str) : Except CppExc Nat :=
  let r := strtoul10 s
  if r.consumed = 0 then Except.error CppExc.invalid_argument
  else if r.erange then Except.error CppExc.out_of_range
  else Except.ok r.value

/-! ### QoS profile model (`rmw/types.h`) -/

/-- `rmw_time_t`. -/
structure rmw_time_t : Type where
  sec : Nat
  nsec : Nat
deriving DecidableEq, Repr

/-- Enumerator values of `rmw_qos_reliability_policy_e`. -/
def RMW_QOS_POLICY_RELIABILITY_SYSTEM_DEFAULT : Nat := 0
def RMW_QOS_POLICY_RELIABILITY_RELIABLE : Nat := 1
def RMW_QOS_POLICY_RELIABILITY_BEST_EFFORT : Nat := 2
def RMW_QOS_POLICY_RELIABILITY_UNKNOWN : Nat := 3

/-- Enumerator values of `rmw_qos_durability_policy_e`. -/
def RMW_QOS_POLICY_DURABILITY_SYSTEM_DEFAULT : Nat := 0
def RMW_QOS_POLICY_DURABILITY_TRANSIENT_LOCAL : Nat := 1
def RMW_QOS_POLICY_DURABILITY_VOLATILE : Nat := 2
def RMW_QOS_POLICY_DURABILITY_UNKNOWN : Nat := 3

/-- Enumerator values of `rmw_qos_history_policy_e`. -/
def RMW_QOS_POLICY_HISTORY_SYSTEM_DEFAULT : Nat := 0
def RMW_QOS_POLICY_HISTORY_KEEP_LAST : Nat := 1
def RMW_QOS_POLICY_HISTORY_KEEP_ALL : Nat := 2
def RMW_QOS_POLICY_HISTORY_UNKNOWN : Nat := 3

/-- `RMW_QOS_POLICY_LIVELINESS_AUTOMATIC` of `rmw_qos_liveliness_policy_e`. -/
def RMW_QOS_POLICY_LIVELINESS_AUTOMATIC : Nat := 1

/-- `RMW_QOS_LIVELINESS_LEASE_DURATION_DEFAULT` (zero duration). -/
def RMW_QOS_LIVELINESS_LEASE_DURATION_DEFAULT : rmw_time_t := ⟨0, 0⟩

/-- `RMW_QOS_DEADLINE_DEFAULT` (zero duration). -/
def RMW_QOS_DEADLINE_DEFAULT : rmw_time_t := ⟨0, 0⟩

/-- `RMW_QOS_LIFESPAN_DEFAULT` (zero duration). -/
def RMW_QOS_LIFESPAN_DEFAULT : rmw_time_t := ⟨0, 0⟩

/-- `rmw_qos_profile_t`.  The enum-typed policy fields carry their
underlying integer value (C++ enums are integer-valued); `depth` is a
`size_t`.  The `avoid_ros_namespace_conventions` flag is never read or
written by this module and is omitted. -/
structure rmw_qos_profile_t : Type where
  history : Nat
  depth : Nat
  reliability : Nat
  durability : Nat
  deadline : rmw_time_t
  lifespan : rmw_time_t
  liveliness : Nat
  liveliness_lease_duration : rmw_time_t
deriving DecidableEq, Repr

/-- The map `str_to_qos_history`, keyed by `std::to_string` of each
enumerator. -/
def str_to_qos_history (s : Str) : Option Nat :=
  List.lookup s
    [(std_to_string RMW_QOS_POLICY_HISTORY_SYSTEM_DEFAULT,
      RMW_QOS_POLICY_HISTORY_SYSTEM_DEFAULT),
     (std_to_string RMW_QOS_POLICY_HISTORY_KEEP_LAST,
      RMW_QOS_POLICY_HISTORY_KEEP_LAST),
     (std_to_string RMW_QOS_POLICY_HISTORY_KEEP_ALL,
      RMW_QOS_POLICY_HISTORY_KEEP_ALL),
     (std_to_string RMW_QOS_POLICY_HISTORY_UNKNOWN,
      RMW_QOS_POLICY_HISTORY_UNKNOWN)]

/-- The map `str_to_qos_reliability`, keyed by `std::to_string` of each
enumerator. -/
def str_to_qos_reliability (s : Str) : Option Nat :=
  List.lookup s
    [(std_to_string RMW_QOS_POLICY_RELIABILITY_SYSTEM_DEFAULT,
      RMW_QOS_POLICY_RELIABILITY_SYSTEM_DEFAULT),
     (std_to_string RMW_QOS_POLICY_RELIABILITY_RELIABLE,
      RMW_QOS_POLICY_RELIABILITY_RELIABLE),
     (std_to_string RMW_QOS_POLICY_RELIABILITY_BEST_EFFORT,
      RMW_QOS_POLICY_RELIABILITY_BEST_EFFORT),
     (std_to_string RMW_QOS_POLICY_RELIABILITY_UNKNOWN,
      RMW_QOS_POLICY_RELIABILITY_UNKNOWN)]

/-- The map `str_to_qos_durability`, keyed by `std::to_string` of each
enumerator. -/
def str_to_qos_durability (s : Str) : Option Nat :=
  List.lookup s
    [(std_to_string RMW_QOS_POLICY_DURABILITY_SYSTEM_DEFAULT,
      RMW_QOS_POLICY_DURABILITY_SYSTEM_DEFAULT),
     (std_to_string RMW_QOS_POLICY_DURABILITY_TRANSIENT_LOCAL,
      RMW_QOS_POLICY_DURABILITY_TRANSIENT_LOCAL),
     (std_to_string RMW_QOS_POLICY_DURABILITY_VOLATILE,
      RMW_QOS_POLICY_DURABILITY_VOLATILE),
     (std_to_string RMW_QOS_POLICY_DURABILITY_UNKNOWN,
      RMW_QOS_POLICY_DURABILITY_UNKNOWN)]

/-- `qos_to_keyexpr`: render a profile as
`<reliability>:<durability>:<history>,<depth>` using the integer value
of each policy enum. -/
def qos_to_keyexpr (qos : rmw_qos_profile_t) : Str :=
  std_to_string qos.reliability
    ++ QOS_DELIMITER :: (std_to_string qos.durability
    ++ QOS_DELIMITER :: (std_to_string qos.history
    ++ QOS_HISTORY_DELIMITER :: std_to_string qos.depth))

/-- `keyexpr_to_qos`: parse a profile back from a key-expression
substring; `none` on any malformed input.  The three table lookups use
`unordered_map::at` inside a `try` block whose `catch` returns
`std::nullopt`, so a missing key yields `none`.  The depth is read with
`strtoul` and rejected when no characters were converted, when
characters follow the number, or when `errno` was set (overflow).  On
success liveliness, its lease duration, deadline and lifespan are fixed
to protocol defaults. -/
def keyexpr_to_qos (keyexpr : Str) : Option rmw_qos_profile_t :=
  let parts := split_keyexpr keyexpr QOS_DELIMITER
  if parts.length < 3 then none
  else
    let history_parts := split_keyexpr (parts.getD 2 []) QOS_HISTORY_DELIMITER
    if history_parts.length < 2 then none
    else
      match str_to_qos_history (history_parts.getD 0 []),
            str_to_qos_reliability (parts.getD 0 []),
            str_to_qos_durability (parts.getD 1 []) with
      | some history, some reliability, some durability =>
        let r := strtoul10 (history_parts.getD 1 [])
        if r.consumed = 0 then none
        else if r.consumed ≠ (history_parts.getD 1 []).length then none
        else if r.erange then none
        else
          some
            { history := history
              depth := r.value
              reliability := reliability
              durability := durability
              deadline := RMW_QOS_DEADLINE_DEFAULT
              lifespan := RMW_QOS_LIFESPAN_DEFAULT
              liveliness := RMW_QOS_POLICY_LIVELINESS_AUTOMATIC
              liveliness_lease_duration := RMW_QOS_LIVELINESS_LEASE_DURATION_DEFAULT }
      | _, _, _ => none

/-! ### Entity model -/

/-- `NodeInfo`: owning node attributes. -/
structure NodeInfo : Type where
  domain_id : Nat
  ns : Str
  name : Str
  enclave : Str
deriving DecidableEq, Repr

/-- `TopicInfo`: topic attributes of non-node entities. -/
structure TopicInfo : Type where
  name : Str
  type : Str
  qos : rmw_qos_profile_t
deriving DecidableEq, Repr

/-- `Entity`: id, type, node info, optional topic info, and the key
expression computed once by the constructor and cached in `keyexpr_`
(returned unchanged by the `keyexpr()` accessor). -/
structure Entity : Type where
  id : Str
  type : EntityType
  node_info : NodeInfo
  topic_info : Option TopicInfo
  keyexpr : Str
deriving DecidableEq, Repr

/-- The `Entity` constructor `Entity::Entity`: stores the fields and
builds the liveliness key expression with successive stream appends:
admin space, `/`, domain id, `/`, id, `/`, entity tag, then the
namespace verbatim; then `_/` when the namespace is exactly `/`, else
`/`; then the mangled node name; and for entities carrying topic info
additionally `/`, mangled topic name, `/`, topic type, `/`, QoS
encoding. -/
def Entity.construct (id : Str) (type : EntityType) (node_info : NodeInfo)
    (topic_info : Option TopicInfo) : Entity :=
  let ns := node_info.ns
  let t1 := ADMIN_SPACE ++ '/' :: (std_to_string node_info.domain_id
    ++ '/' :: (id ++ '/' :: (entity_to_str type ++ ns)))
  let t2 := if ns = ['/'] then t1 ++ ['_', '/'] else t1 ++ ['/']
  let t3 := t2 ++ mangle_name node_info.name
  let t4 := match topic_info with
    | some ti =>
      t3 ++ '/' :: (mangle_name ti.name ++ '/' :: (ti.type ++ '/' :: qos_to_keyexpr ti.qos))
    | none => t3
  ⟨id, type, node_info, topic_info, t4⟩

/-- The body of `Entity::make(const std::string &)` after the split:
validation and reconstruction over the `parts` vector.  Returns
`Except.ok none` on every validation failure (fewer than 6 segments, an
empty segment, wrong admin space, unknown entity tag, missing topic
segments, bad QoS); the call `std::stoul(parts[1])` is NOT guarded, so
its exceptions escape as `Except.error`.  On success the entity is
rebuilt through the constructor (with an empty enclave), which
recomputes the key expression from the parsed fields. -/
def Entity.make_parts (parts : List Str) : Except CppExc (Option Entity) :=
  if parts.length < 6 then Except.ok none
  else if parts.any List.isEmpty then Except.ok none
  else if parts.getD 0 [] ≠ ADMIN_SPACE then Except.ok none
  else
    match str_to_entity (parts.getD 3 []) with
    | none => Except.ok none
    | some entity_type =>
      match stoul (parts.getD 1 []) with
      | Except.error e => Except.error e
      | Except.ok domain_id =>
        let id := parts.getD 2 []
        let ns := if parts.getD 4 [] = ['_'] then ['/'] else '/' :: parts.getD 4 []
        let node_name := demangle_name (parts.getD 5 [])
        if entity_type ≠ EntityType.Node then
          if parts.length < 9 then Except.ok none
          else
            match keyexpr_to_qos (parts.getD 8 []) with
            | none => Except.ok none
            | some qos =>
              Except.ok (some (Entity.construct id entity_type
                ⟨domain_id, ns, node_name, []⟩
                (some ⟨demangle_name (parts.getD 6 []), parts.getD 7 [], qos⟩)))
        else
          Except.ok (some (Entity.construct id entity_type
            ⟨domain_id, ns, node_name, []⟩ none))

/-- `Entity::make(const std::string &)` splits the key expression on `/`
and hands the parts to the validation above. -/
def Entity.make (keyexpr : Str) : Except CppExc (Option Entity) :=
  Entity.make_parts (split_keyexpr keyexpr '/')

/-! ### Spec-side definitions

These re-state, in the spec's own words, the formats that the claims
compare the code against. -/

/-- Modelled from the spec (claim C2): the key expression as the flat
concatenation `"<admin-space-tag>/<domain_id>/<id>/<entity-tag>"`, the
namespace segment (the namespace followed by `_/` when it is exactly
`/`, otherwise followed by `/`), the mangled node name, and, when topic
info is present, `"/<mangled-topic-name>/<topic-type>/<qos-encoding>"`
with the QoS encoding `<reliability>:<durability>:<history>,<depth>`. -/
def spec_keyexpr_format (id : Str) (type : EntityType) (node_info : NodeInfo)
    (topic_info : Option TopicInfo) : Str :=
  ADMIN_SPACE ++ ['/']
    ++ std_to_string node_info.domain_id ++ ['/']
    ++ id ++ ['/']
    ++ entity_to_str type
    ++ (if node_info.ns = ['/'] then node_info.ns ++ ['_', '/'] else node_info.ns ++ ['/'])
    ++ mangle_name node_info.name
    ++ (match topic_info with
        | some ti =>
          ['/'] ++ mangle_name ti.name ++ ['/'] ++ ti.type ++ ['/']
            ++ (std_to_string ti.qos.reliability ++ [':']
                ++ std_to_string ti.qos.durability ++ [':']
                ++ std_to_string ti.qos.history ++ [',']
                ++ std_to_string ti.qos.depth)
        | none => [])

/-- A QoS profile with the fields that the wire format does not carry
replaced by the protocol defaults that decoding installs. -/
def qos_with_defaults (q : rmw_qos_profile_t) : rmw_qos_profile_t :=
  { q with
    liveliness := RMW_QOS_POLICY_LIVELINESS_AUTOMATIC
    liveliness_lease_duration := RMW_QOS_LIVELINESS_LEASE_DURATION_DEFAULT
    deadline := RMW_QOS_DEADLINE_DEFAULT
    lifespan := RMW_QOS_LIFESPAN_DEFAULT }

/-- The trailing key-expression segments contributed by an optional
`TopicInfo` (empty for node entities). -/
def topic_segments : Option TopicInfo → List Str
  | some ti => [mangle_name ti.name, ti.type, qos_to_keyexpr ti.qos]
  | none => []

/-! ### Helper lemmas: mangling -/

theorem demangle_name_mangle_name (x : Str) (hx : SLASH_REPLACEMENT ∉ x) :
    demangle_name (mangle_name x) = x := by
  induction x with
  | nil => rfl
  | cons c cs ih =>
    simp only [List.mem_cons, not_or] at hx
    simp only [mangle_name, demangle_name, List.map_cons, List.map_map] at ih ⊢
    refine List.cons_eq_cons.mpr ⟨?_, ih hx.2⟩
    by_cases hc : c = '/'
    · subst hc; simp [SLASH_REPLACEMENT]
    · have hne : c ≠ SLASH_REPLACEMENT := fun h => hx.1 h.symm
      simp [Function.comp, hc, hne]

theorem mangle_name_length (x : Str) : (mangle_name x).length = x.length := by
  simp [mangle_name]

theorem mangle_name_ne_nil (x : Str) (hx : x ≠ []) : mangle_name x ≠ [] := by
  intro h
  exact hx (List.length_eq_zero.mp (by rw [← mangle_name_length x, h, List.length_nil]))

theorem mangle_name_not_mem_slash (x : Str) : '/' ∉ mangle_name x := by
  intro h
  rcases List.mem_map.mp h with ⟨c, _, hc⟩
  by_cases h' : c = '/' <;> simp [h', SLASH_REPLACEMENT] at hc

/-! ### Helper lemmas: decimal digits -/

theorem digitChar_isDigit (n : Nat) (h : n < 10) : (digitChar n).isDigit = true := by
  interval_cases n <;> decide

theorem digitChar_toNat (n : Nat) (h : n < 10) : (digitChar n).toNat = 48 + n := by
  interval_cases n <;> decide

theorem digitsToNat_append (ds : Str) (c : Char) :
    digitsToNat (ds ++ [c]) = 10 * digitsToNat ds + (c.toNat - 48) := by
  simp [digitsToNat, List.foldl_append, Nat.mul_comm]

theorem std_to_string_core_spec :
    ∀ (fuel n : Nat) (acc : Str), n < fuel →
      ∃ ds : Str, std_to_string_core fuel n acc = ds ++ acc ∧ ds ≠ [] ∧
        (∀ c ∈ ds, c.isDigit = true) ∧ digitsToNat ds = n := by
  intro fuel
  induction fuel with
  | zero => intro n acc h; omega
  | succ fuel ih =>
    intro n acc h
    simp only [std_to_string_core]
    by_cases h10 : n < 10
    · refine ⟨[digitChar n], by simp [h10], by simp, ?_, ?_⟩
      · intro c hc
        rw [List.mem_singleton] at hc
        subst hc
        exact digitChar_isDigit n h10
      · simp only [digitsToNat, List.foldl_cons, List.foldl_nil, Nat.zero_mul, Nat.zero_add]
        rw [digitChar_toNat n h10]
        omega
    · have hlt : n / 10 < fuel := by
        have hd := Nat.div_lt_self (n := n) (by omega) (by omega : 1 < 10)
        omega
      obtain ⟨ds, heq, hne, hdig, hval⟩ := ih (n / 10) (digitChar (n % 10) :: acc) hlt
      refine ⟨ds ++ [digitChar (n % 10)], by simp [h10, heq], by simp, ?_, ?_⟩
      · intro c hc
        rcases List.mem_append.mp hc with h' | h'
        · exact hdig c h'
        · rw [List.mem_singleton] at h'
          subst h'
          exact digitChar_isDigit _ (Nat.mod_lt _ (by omega))
      · rw [digitsToNat_append, hval, digitChar_toNat _ (Nat.mod_lt _ (by omega))]
        omega

theorem std_to_string_spec (n : Nat) :
    std_to_string n ≠ [] ∧ (∀ c ∈ std_to_string n, c.isDigit = true) ∧
      digitsToNat (std_to_string n) = n := by
  obtain ⟨ds, heq, hne, hdig, hval⟩ := std_to_string_core_spec (n + 1) n [] (by omega)
  rw [std_to_string, heq, List.append_nil]
  exact ⟨hne, hdig, hval⟩

theorem std_to_string_ne_nil (n : Nat) : std_to_string n ≠ [] :=
  (std_to_string_spec n).1

theorem std_to_string_all_digits (n : Nat) :
    ∀ c ∈ std_to_string n, c.isDigit = true :=
  (std_to_string_spec n).2.1

theorem digitsToNat_std_to_string (n : Nat) :
    digitsToNat (std_to_string n) = n :=
  (std_to_string_spec n).2.2

/-- Characters a decimal digit can never be. -/
theorem isDigit_ne (c : Char) (h : c.isDigit = true) :
    c ≠ '/' ∧ c ≠ ':' ∧ c ≠ ',' ∧ c ≠ '-' ∧ c ≠ '+' ∧ isCSpace c = false := by
  refine ⟨?_, ?_, ?_, ?_, ?_, ?_⟩
  · intro he; subst he; simp [Char.isDigit] at h
  · intro he; subst he; simp [Char.isDigit] at h
  · intro he; subst he; simp [Char.isDigit] at h
  · intro he; subst he; simp [Char.isDigit] at h
  · intro he; subst he; simp [Char.isDigit] at h
  · simp only [isCSpace, Bool.or_eq_false_iff, decide_eq_false_iff_not]
    refine ⟨⟨⟨⟨⟨?_, ?_⟩, ?_⟩, ?_⟩, ?_⟩, ?_⟩ <;> (intro he; subst he; simp [Char.isDigit] at h)

theorem std_to_string_not_slash (n : Nat) : '/' ∉ std_to_string n := by
  intro h
  exact (isDigit_ne _ (std_to_string_all_digits n _ h)).1 rfl

theorem std_to_string_not_colon (n : Nat) : ':' ∉ std_to_string n := by
  intro h
  exact (isDigit_ne _ (std_to_string_all_digits n _ h)).2.1 rfl

theorem std_to_string_not_comma (n : Nat) : ',' ∉ std_to_string n := by
  intro h
  exact (isDigit_ne _ (std_to_string_all_digits n _ h)).2.2.1 rfl

/-! ### Helper lemmas: strtoul -/

theorem strtoulDigits_of_digits (ds : Str) (pre : Nat) (neg : Bool)
    (hne : ds ≠ []) (hd : ∀ c ∈ ds, c.isDigit = true) :
    strtoulDigits ds pre neg =
      if ULONG_MAX < digitsToNat ds then ⟨ULONG_MAX, pre + ds.length, true⟩
      else ⟨if neg then (2 ^ 64 - digitsToNat ds % 2 ^ 64) % 2 ^ 64 else digitsToNat ds,
        pre + ds.length, false⟩ := by
  unfold strtoulDigits
  rw [List.takeWhile_eq_self_iff.mpr hd]
  simp [hne, List.isEmpty_iff]

theorem strtoul10_of_digits (ds : Str) (hne : ds ≠ [])
    (hd : ∀ c ∈ ds, c.isDigit = true) :
    strtoul10 ds =
      if ULONG_MAX < digitsToNat ds then ⟨ULONG_MAX, ds.length, true⟩
      else ⟨digitsToNat ds, ds.length, false⟩ := by
  obtain ⟨c, cs, rfl⟩ := List.exists_cons_of_ne_nil hne
  have hc := isDigit_ne c (hd c (List.mem_cons_self c cs))
  have hstep : strtoul10 (c :: cs) = strtoulDigits (c :: cs) 0 false := by
    unfold strtoul10
    rw [List.dropWhile_cons, hc.2.2.2.2.2]
    simp [hc.2.2.2.1, hc.2.2.2.2.1]
  rw [hstep, strtoulDigits_of_digits (c :: cs) 0 false hne hd]
  simp

theorem strtoul10_std_to_string (n : Nat) (h : n ≤ ULONG_MAX) :
    strtoul10 (std_to_string n) = ⟨n, (std_to_string n).length, false⟩ := by
  rw [strtoul10_of_digits _ (std_to_string_ne_nil n) (std_to_string_all_digits n),
    digitsToNat_std_to_string, if_neg (by omega)]

theorem stoul_std_to_string (n : Nat) (h : n ≤ ULONG_MAX) :
    stoul (std_to_string n) = Except.ok n := by
  unfold stoul
  rw [strtoul10_std_to_string n h]
  have hlen : (std_to_string n).length ≠ 0 := by
    simpa [List.length_eq_zero] using std_to_string_ne_nil n
  simp [hlen]

/-! ### Helper lemmas: split_keyexpr -/

theorem split_keyexpr_first (a rest : Str) (d : Char) (h : d ∉ a) :
    split_keyexpr (a ++ d :: rest) d = a :: split_keyexpr rest d := by
  unfold split_keyexpr List.splitOn
  exact List.splitOnP_first _ a
    (fun x hx => by simp only [beq_iff_eq]; exact fun he => h (he ▸ hx)) d
    (by simp) rest

theorem split_keyexpr_single (s : Str) (d : Char) (h : d ∉ s) :
    split_keyexpr s d = [s] := by
  unfold split_keyexpr List.splitOn
  exact List.splitOnP_eq_single _ _
    (fun x hx => by simp only [beq_iff_eq]; exact fun he => h (he ▸ hx))

theorem split_keyexpr_ne_nil (s : Str) (d : Char) : split_keyexpr s d ≠ [] :=
  List.splitOnP_ne_nil _ s

theorem mem_split_keyexpr_not_delim (s : Str) (d : Char) :
    ∀ p ∈ split_keyexpr s d, d ∉ p := by
  unfold split_keyexpr List.splitOn
  induction s with
  | nil => intro p hp; rw [List.splitOnP_nil, List.mem_singleton] at hp; simp [hp]
  | cons c cs ih =>
    intro p hp
    rw [List.splitOnP_cons] at hp
    by_cases hc : (c == d) = true
    · rw [if_pos hc] at hp
      rcases List.mem_cons.mp hp with rfl | h
      · simp
      · exact ih p h
    · rw [if_neg hc] at hp
      rcases hsp : List.splitOnP (· == d) cs with _ | ⟨hd₀, tl₀⟩
      · exact absurd hsp (List.splitOnP_ne_nil _ cs)
      · rw [hsp, List.modifyHead_cons] at hp
        rcases List.mem_cons.mp hp with rfl | h
        · intro hmem
          rcases List.mem_cons.mp hmem with rfl | h'
          · exact hc (by simp)
          · exact ih hd₀ (hsp ▸ List.mem_cons_self _ _) h'
        · exact ih p (hsp ▸ List.mem_cons_of_mem _ h)

theorem split_keyexpr_intercalate (ps : List Str) (d : Char)
    (hx : ∀ l ∈ ps, d ∉ l) (hps : ps ≠ []) :
    split_keyexpr (List.intercalate [d] ps) d = ps := by
  unfold split_keyexpr
  exact List.splitOn_intercalate ps d hx hps

/-! ### Helper lemmas: QoS codec -/

theorem str_to_qos_history_std (n : Nat)
    (h : n ∈ [RMW_QOS_POLICY_HISTORY_SYSTEM_DEFAULT, RMW_QOS_POLICY_HISTORY_KEEP_LAST,
      RMW_QOS_POLICY_HISTORY_KEEP_ALL, RMW_QOS_POLICY_HISTORY_UNKNOWN]) :
    str_to_qos_history (std_to_string n) = some n := by
  simp only [List.mem_cons, List.not_mem_nil, or_false] at h
  rcases h with rfl | rfl | rfl | rfl <;> decide

theorem str_to_qos_reliability_std (n : Nat)
    (h : n ∈ [RMW_QOS_POLICY_RELIABILITY_SYSTEM_DEFAULT, RMW_QOS_POLICY_RELIABILITY_RELIABLE,
      RMW_QOS_POLICY_RELIABILITY_BEST_EFFORT, RMW_QOS_POLICY_RELIABILITY_UNKNOWN]) :
    str_to_qos_reliability (std_to_string n) = some n := by
  simp only [List.mem_cons, List.not_mem_nil, or_false] at h
  rcases h with rfl | rfl | rfl | rfl <;> decide

theorem str_to_qos_durability_std (n : Nat)
    (h : n ∈ [RMW_QOS_POLICY_DURABILITY_SYSTEM_DEFAULT, RMW_QOS_POLICY_DURABILITY_TRANSIENT_LOCAL,
      RMW_QOS_POLICY_DURABILITY_VOLATILE, RMW_QOS_POLICY_DURABILITY_UNKNOWN]) :
    str_to_qos_durability (std_to_string n) = some n := by
  simp only [List.mem_cons, List.not_mem_nil, or_false] at h
  rcases h with rfl | rfl | rfl | rfl <;> decide

theorem qos_to_keyexpr_not_slash (q : rmw_qos_profile_t) : '/' ∉ qos_to_keyexpr q := by
  unfold qos_to_keyexpr
  intro h
  rcases List.mem_append.mp h with h | h
  · exact std_to_string_not_slash _ h
  rcases List.mem_cons.mp h with he | h
  · exact absurd he (by decide)
  rcases List.mem_append.mp h with h | h
  · exact std_to_string_not_slash _ h
  rcases List.mem_cons.mp h with he | h
  · exact absurd he (by decide)
  rcases List.mem_append.mp h with h | h
  · exact std_to_string_not_slash _ h
  rcases List.mem_cons.mp h with he | h
  · exact absurd he (by decide)
  · exact std_to_string_not_slash _ h

theorem qos_to_keyexpr_ne_nil (q : rmw_qos_profile_t) : qos_to_keyexpr q ≠ [] := by
  unfold qos_to_keyexpr
  intro h
  exact std_to_string_ne_nil q.reliability (List.append_eq_nil.mp h).1

theorem keyexpr_to_qos_qos_to_keyexpr (q : rmw_qos_profile_t)
    (hr : q.reliability ∈ [RMW_QOS_POLICY_RELIABILITY_SYSTEM_DEFAULT,
      RMW_QOS_POLICY_RELIABILITY_RELIABLE, RMW_QOS_POLICY_RELIABILITY_BEST_EFFORT,
      RMW_QOS_POLICY_RELIABILITY_UNKNOWN])
    (hd : q.durability ∈ [RMW_QOS_POLICY_DURABILITY_SYSTEM_DEFAULT,
      RMW_QOS_POLICY_DURABILITY_TRANSIENT_LOCAL, RMW_QOS_POLICY_DURABILITY_VOLATILE,
      RMW_QOS_POLICY_DURABILITY_UNKNOWN])
    (hh : q.history ∈ [RMW_QOS_POLICY_HISTORY_SYSTEM_DEFAULT,
      RMW_QOS_POLICY_HISTORY_KEEP_LAST, RMW_QOS_POLICY_HISTORY_KEEP_ALL,
      RMW_QOS_POLICY_HISTORY_UNKNOWN])
    (hdep : q.depth ≤ ULONG_MAX) :
    keyexpr_to_qos (qos_to_keyexpr q) = some (qos_with_defaults q) := by
  have hs1 : split_keyexpr (qos_to_keyexpr q) ':' =
      [std_to_string q.reliability, std_to_string q.durability,
        std_to_string q.history ++ ',' :: std_to_string q.depth] := by
    unfold qos_to_keyexpr
    simp only [QOS_DELIMITER, QOS_HISTORY_DELIMITER]
    rw [split_keyexpr_first _ _ _ (std_to_string_not_colon _),
      split_keyexpr_first _ _ _ (std_to_string_not_colon _),
      split_keyexpr_single]
    intro hmem
    rcases List.mem_append.mp hmem with h | h
    · exact std_to_string_not_colon _ h
    rcases List.mem_cons.mp h with he | h
    · exact absurd he (by decide)
    · exact std_to_string_not_colon _ h
  have hs2 : split_keyexpr
      (std_to_string q.history ++ ',' :: std_to_string q.depth) ',' =
      [std_to_string q.history, std_to_string q.depth] := by
    rw [split_keyexpr_first _ _ _ (std_to_string_not_comma _),
      split_keyexpr_single _ _ (std_to_string_not_comma _)]
  have hlen : (std_to_string q.depth).length ≠ 0 := by
    simpa [List.length_eq_zero] using std_to_string_ne_nil q.depth
  unfold keyexpr_to_qos
  simp only [QOS_DELIMITER, QOS_HISTORY_DELIMITER, hs1, List.getD_cons_zero,
    List.getD_cons_succ, List.length_cons, List.length_nil, hs2,
    str_to_qos_history_std _ hh, str_to_qos_reliability_std _ hr,
    str_to_qos_durability_std _ hd, strtoul10_std_to_string _ hdep]
  rw [if_neg (by omega), if_neg (by omega), if_neg hlen, if_neg (by simp), if_neg (by simp)]
  simp [qos_with_defaults, RMW_QOS_DEADLINE_DEFAULT, RMW_QOS_LIFESPAN_DEFAULT,
    RMW_QOS_LIVELINESS_LEASE_DURATION_DEFAULT]

/-! ### Helper lemmas: entity encoding -/

theorem intercalate_char_singleton (d : Char) (a : Str) :
    List.intercalate [d] [a] = a := by
  simp [List.intercalate]

theorem intercalate_char_cons (d : Char) (a : Str) (ps : List Str) (h : ps ≠ []) :
    List.intercalate [d] (a :: ps) = a ++ d :: List.intercalate [d] ps := by
  obtain ⟨b, t, rfl⟩ := List.exists_cons_of_ne_nil h
  simp [List.intercalate, List.intersperse_cons_cons]

theorem str_to_entity_entity_to_str (t : EntityType) :
    str_to_entity (entity_to_str t) = some t := by
  cases t <;> decide

theorem entity_to_str_ne_nil (t : EntityType) : entity_to_str t ≠ [] := by
  cases t <;> decide

theorem entity_to_str_not_slash (t : EntityType) : '/' ∉ entity_to_str t := by
  cases t <;> decide

theorem Entity.construct_id (id : Str) (t : EntityType) (ni : NodeInfo)
    (ti : Option TopicInfo) : (Entity.construct id t ni ti).id = id := rfl

theorem Entity.construct_type (id : Str) (t : EntityType) (ni : NodeInfo)
    (ti : Option TopicInfo) : (Entity.construct id t ni ti).type = t := rfl

theorem Entity.construct_node_info (id : Str) (t : EntityType) (ni : NodeInfo)
    (ti : Option TopicInfo) : (Entity.construct id t ni ti).node_info = ni := rfl

theorem Entity.construct_topic_info (id : Str) (t : EntityType) (ni : NodeInfo)
    (ti : Option TopicInfo) : (Entity.construct id t ni ti).topic_info = ti := rfl

theorem Entity.construct_keyexpr_root (id : Str) (t : EntityType) (dom : Nat)
    (name encl : Str) (ti : Option TopicInfo) :
    (Entity.construct id t ⟨dom, ['/'], name, encl⟩ ti).keyexpr =
      List.intercalate ['/']
        ([ADMIN_SPACE, std_to_string dom, id, entity_to_str t, ['_'], mangle_name name]
          ++ topic_segments ti) := by
  cases ti with
  | none =>
    rw [topic_segments, List.append_nil]
    rw [intercalate_char_cons _ _ _ (by simp), intercalate_char_cons _ _ _ (by simp),
      intercalate_char_cons _ _ _ (by simp), intercalate_char_cons _ _ _ (by simp),
      intercalate_char_cons _ _ _ (by simp), intercalate_char_singleton]
    simp [Entity.construct]
  | some x =>
    rw [topic_segments]
    simp only [List.cons_append, List.nil_append]
    rw [intercalate_char_cons _ _ _ (by simp), intercalate_char_cons _ _ _ (by simp),
      intercalate_char_cons _ _ _ (by simp), intercalate_char_cons _ _ _ (by simp),
      intercalate_char_cons _ _ _ (by simp), intercalate_char_cons _ _ _ (by simp),
      intercalate_char_cons _ _ _ (by simp), intercalate_char_cons _ _ _ (by simp),
      intercalate_char_singleton]
    simp [Entity.construct]

theorem Entity.construct_keyexpr_sub (id : Str) (t : EntityType) (dom : Nat)
    (tail name encl : Str) (ti : Option TopicInfo) (htail : tail ≠ []) :
    (Entity.construct id t ⟨dom, '/' :: tail, name, encl⟩ ti).keyexpr =
      List.intercalate ['/']
        ([ADMIN_SPACE, std_to_string dom, id, entity_to_str t, tail, mangle_name name]
          ++ topic_segments ti) := by
  have hns : ('/' :: tail : Str) ≠ ['/'] := by
    intro h
    exact htail (by simpa using congrArg List.tail h)
  cases ti with
  | none =>
    rw [topic_segments, List.append_nil]
    rw [intercalate_char_cons _ _ _ (by simp), intercalate_char_cons _ _ _ (by simp),
      intercalate_char_cons _ _ _ (by simp), intercalate_char_cons _ _ _ (by simp),
      intercalate_char_cons _ _ _ (by simp), intercalate_char_singleton]
    simp [Entity.construct, hns]
  | some x =>
    rw [topic_segments]
    simp only [List.cons_append, List.nil_append]
    rw [intercalate_char_cons _ _ _ (by simp), intercalate_char_cons _ _ _ (by simp),
      intercalate_char_cons _ _ _ (by simp), intercalate_char_cons _ _ _ (by simp),
      intercalate_char_cons _ _ _ (by simp), intercalate_char_cons _ _ _ (by simp),
      intercalate_char_cons _ _ _ (by simp), intercalate_char_cons _ _ _ (by simp),
      intercalate_char_singleton]
    simp [Entity.construct, hns]

theorem isEmpty_false_of_ne_nil (l : Str) (h : l ≠ []) : l.isEmpty = false := by
  cases l with
  | nil => exact absurd rfl h
  | cons a t => rfl

/-! ### Helper lemmas: evaluating the decoder on validated parts -/

theorem make_parts_success_node (parts : List Str) (dom : Nat)
    (hlen : 6 ≤ parts.length)
    (hne : ∀ p ∈ parts, p ≠ [])
    (h0 : parts.getD 0 [] = ADMIN_SPACE)
    (h3 : str_to_entity (parts.getD 3 []) = some EntityType.Node)
    (h1 : stoul (parts.getD 1 []) = Except.ok dom) :
    Entity.make_parts parts =
      Except.ok (some (Entity.construct (parts.getD 2 []) EntityType.Node
        ⟨dom, if parts.getD 4 [] = ['_'] then ['/'] else '/' :: parts.getD 4 [],
          demangle_name (parts.getD 5 []), []⟩ none)) := by
  have hany : parts.any List.isEmpty = false := by
    rw [List.any_eq_false]
    intro x hx
    simp [isEmpty_false_of_ne_nil x (hne x hx)]
  unfold Entity.make_parts
  rw [if_neg (by omega), hany, if_neg (by simp), h0, if_neg (fun h => h rfl), h3, h1]
  simp

theorem make_parts_success_topic (parts : List Str) (t : EntityType) (dom : Nat)
    (q : rmw_qos_profile_t)
    (hT : t ≠ EntityType.Node)
    (hlen : 9 ≤ parts.length)
    (hne : ∀ p ∈ parts, p ≠ [])
    (h0 : parts.getD 0 [] = ADMIN_SPACE)
    (h3 : str_to_entity (parts.getD 3 []) = some t)
    (h1 : stoul (parts.getD 1 []) = Except.ok dom)
    (h8 : keyexpr_to_qos (parts.getD 8 []) = some q) :
    Entity.make_parts parts =
      Except.ok (some (Entity.construct (parts.getD 2 []) t
        ⟨dom, if parts.getD 4 [] = ['_'] then ['/'] else '/' :: parts.getD 4 [],
          demangle_name (parts.getD 5 []), []⟩
        (some ⟨demangle_name (parts.getD 6 []), parts.getD 7 [], q⟩))) := by
  have hany : parts.any List.isEmpty = false := by
    rw [List.any_eq_false]
    intro x hx
    simp [isEmpty_false_of_ne_nil x (hne x hx)]
  unfold Entity.make_parts
  rw [if_neg (by omega), hany, if_neg (by simp), h0, if_neg (fun h => h rfl), h3, h1, h8]
  simp [hT, show ¬parts.length < 9 by omega]

/-! ### Claims -/

/-- C8: for all strings `x` free of the escape character `%`,
`demangle_name (mangle_name x) = x`; both functions are total (they are
Lean functions), and `mangle_name` is injective on the escape-free
strings. -/
theorem C8_mangle_demangle_inverse (x y : Str)
    (hx : SLASH_REPLACEMENT ∉ x) (hy : SLASH_REPLACEMENT ∉ y) :
    demangle_name (mangle_name x) = x ∧
      (mangle_name x = mangle_name y → x = y) := by
  refine ⟨demangle_name_mangle_name x hx, fun h => ?_⟩
  rw [← demangle_name_mangle_name x hx, ← demangle_name_mangle_name y hy, h]

theorem C8_mangle_demangle_inverse_witness :
    (SLASH_REPLACEMENT ∉ ("/talker/a".toList : Str) ∧
      SLASH_REPLACEMENT ∉ ("/chatter".toList : Str)) ∧
    (demangle_name (mangle_name "/talker/a".toList) = "/talker/a".toList ∧
      (mangle_name "/talker/a".toList = mangle_name "/chatter".toList →
        "/talker/a".toList = "/chatter".toList)) :=
  ⟨⟨by decide, by decide⟩,
    C8_mangle_demangle_inverse "/talker/a".toList "/chatter".toList (by decide) (by decide)⟩

/-- C2: the key expression cached at construction is exactly the fixed
concatenation described by the spec (admin tag, domain id, id, entity
tag, namespace segment with the `_/` sentinel for the root namespace,
mangled node name, and — when topic info is present — mangled topic
name, verbatim topic type and `<reliability>:<durability>:<history>,<depth>`).
The `keyexpr` accessor returns the stored field, which the model keeps
immutable by construction. -/
theorem C2_keyexpr_format (id : Str) (t : EntityType) (ni : NodeInfo)
    (ti : Option TopicInfo) :
    (Entity.construct id t ni ti).keyexpr = spec_keyexpr_format id t ni ti := by
  cases ti <;> by_cases h : ni.ns = ['/'] <;>
    simp [Entity.construct, spec_keyexpr_format, qos_to_keyexpr, h,
      QOS_DELIMITER, QOS_HISTORY_DELIMITER, List.append_assoc]

/-- C6: decoding an encoded QoS profile whose policy values come from
the closed enum tables and whose depth is representable recovers the
profile, except that liveliness, its lease duration, deadline and
lifespan are fixed to the protocol defaults. -/
theorem C6_qos_roundtrip (q : rmw_qos_profile_t)
    (hr : q.reliability ∈ [RMW_QOS_POLICY_RELIABILITY_SYSTEM_DEFAULT,
      RMW_QOS_POLICY_RELIABILITY_RELIABLE, RMW_QOS_POLICY_RELIABILITY_BEST_EFFORT,
      RMW_QOS_POLICY_RELIABILITY_UNKNOWN])
    (hd : q.durability ∈ [RMW_QOS_POLICY_DURABILITY_SYSTEM_DEFAULT,
      RMW_QOS_POLICY_DURABILITY_TRANSIENT_LOCAL, RMW_QOS_POLICY_DURABILITY_VOLATILE,
      RMW_QOS_POLICY_DURABILITY_UNKNOWN])
    (hh : q.history ∈ [RMW_QOS_POLICY_HISTORY_SYSTEM_DEFAULT,
      RMW_QOS_POLICY_HISTORY_KEEP_LAST, RMW_QOS_POLICY_HISTORY_KEEP_ALL,
      RMW_QOS_POLICY_HISTORY_UNKNOWN])
    (hdep : q.depth ≤ ULONG_MAX) :
    keyexpr_to_qos (qos_to_keyexpr q) = some (qos_with_defaults q) :=
  keyexpr_to_qos_qos_to_keyexpr q hr hd hh hdep

theorem C6_qos_roundtrip_witness :
    keyexpr_to_qos (qos_to_keyexpr ⟨2, 10, 2, 1, ⟨0, 0⟩, ⟨0, 0⟩, 1, ⟨0, 0⟩⟩) =
      some (qos_with_defaults ⟨2, 10, 2, 1, ⟨0, 0⟩, ⟨0, 0⟩, 1, ⟨0, 0⟩⟩) :=
  C6_qos_roundtrip ⟨2, 10, 2, 1, ⟨0, 0⟩, ⟨0, 0⟩, 1, ⟨0, 0⟩⟩
    (by decide) (by decide) (by decide) (by decide)

/-- C4 (code bug): on a token that passes the segment-count, non-empty
segment, admin-space and entity-tag checks but whose segment 1 is not
numeric, `Entity::make` does not return an absent result — the
unguarded `std::stoul(parts[1])` throws `std::invalid_argument`, which
escapes the function.  The spec requires an absent result and no
exception crossing the module boundary. -/
theorem C4_stoul_exception_escapes :
    (6 ≤ (split_keyexpr "@ros2_lv/abc/id/NN/_/name".toList '/').length ∧
      (∀ p ∈ split_keyexpr "@ros2_lv/abc/id/NN/_/name".toList '/', p ≠ []) ∧
      (split_keyexpr "@ros2_lv/abc/id/NN/_/name".toList '/').getD 0 [] = ADMIN_SPACE ∧
      str_to_entity ((split_keyexpr "@ros2_lv/abc/id/NN/_/name".toList '/').getD 3 []) =
        some EntityType.Node) ∧
    Entity.make "@ros2_lv/abc/id/NN/_/name".toList =
      Except.error CppExc.invalid_argument := by
  constructor
  · exact ⟨by decide, by decide, by decide, by decide⟩
  · decide

/-- C9: every entity produced by the parsing factory carries an empty
enclave — the enclave is not part of the wire format, so whatever a
locally constructed entity carried is not recoverable by decode. -/
theorem C9_decoded_enclave_empty (s : Str) (e : Entity)
    (h : Entity.make s = Except.ok (some e)) : e.node_info.enclave = [] := by
  unfold Entity.make Entity.make_parts at h
  repeat' split at h
  all_goals simp only [Except.ok.injEq, Option.some.injEq, reduceCtorEq] at h
  all_goals (subst h; rfl)

theorem C9_decoded_enclave_empty_witness :
    Entity.make "@ros2_lv/0/abc/NN/_/mynode".toList =
      Except.ok (some (Entity.construct "abc".toList EntityType.Node
        ⟨0, "/".toList, "mynode".toList, []⟩ none)) ∧
    (Entity.construct "abc".toList EntityType.Node
      ⟨0, "/".toList, "mynode".toList, []⟩ none).node_info.enclave = [] :=
  ⟨by decide, C9_decoded_enclave_empty "@ros2_lv/0/abc/NN/_/mynode".toList _ (by decide)⟩

/-- C5 counterexample: on the token `@ros2_lv/0/i/NN/foo/n` decoding
succeeds and the resulting namespace is `/foo`, not segment 4 (`foo`)
used as-is as the claim states. -/
theorem C5_counterexample :
    Entity.make "@ros2_lv/0/i/NN/foo/n".toList =
      Except.ok (some (Entity.construct "i".toList EntityType.Node
        ⟨0, "/foo".toList, "n".toList, []⟩ none)) ∧
    (Entity.construct "i".toList EntityType.Node
      ⟨0, "/foo".toList, "n".toList, []⟩ none).node_info.ns ≠ "foo".toList := by
  constructor
  · decide
  · decide

/-- C5 (amended): on every token accepted by `Entity::make`, segment 4
equal to `_` decodes to the root namespace `/`; any other segment 4
yields `/` followed by that segment verbatim — no demangling is applied
to the namespace (only node and topic names are demangled). -/
theorem C5_namespace_decoding (s : Str) (e : Entity)
    (h : Entity.make s = Except.ok (some e)) :
    e.node_info.ns =
      if (split_keyexpr s '/').getD 4 [] = ['_'] then ['/']
      else '/' :: (split_keyexpr s '/').getD 4 [] := by
  unfold Entity.make Entity.make_parts at h
  repeat' split at h
  all_goals simp only [Except.ok.injEq, Option.some.injEq, reduceCtorEq] at h
  all_goals (subst h; simp_all [Entity.construct, List.getD])

theorem C5_namespace_decoding_witness :
    Entity.make "@ros2_lv/0/i/NN/a%b/n".toList =
      Except.ok (some (Entity.construct "i".toList EntityType.Node
        ⟨0, "/a%b".toList, "n".toList, []⟩ none)) ∧
    (Entity.construct "i".toList EntityType.Node
      ⟨0, "/a%b".toList, "n".toList, []⟩ none).node_info.ns = "/a%b".toList :=
  ⟨by decide, C5_namespace_decoding "@ros2_lv/0/i/NN/a%b/n".toList _ (by decide)⟩

/-- C3 counterexample: `@ros2_lv/x/i/MP/a/b` has all segments
non-empty, a valid non-Node tag and fewer than 9 segments, so the claim
says `Entity::make` returns an absent result; instead the unguarded
`std::stoul` on the non-numeric segment 1 throws. -/
theorem C3_counterexample :
    (∀ p ∈ split_keyexpr "@ros2_lv/x/i/MP/a/b".toList '/', p ≠ []) ∧
    str_to_entity ((split_keyexpr "@ros2_lv/x/i/MP/a/b".toList '/').getD 3 []) =
      some EntityType.Publisher ∧
    (split_keyexpr "@ros2_lv/x/i/MP/a/b".toList '/').length < 9 ∧
    Entity.make "@ros2_lv/x/i/MP/a/b".toList ≠ Except.ok none :=
  ⟨by decide, by decide, by decide, by decide⟩

/-- C3 (amended): `Entity::make` returns an absent result whenever the
input has fewer than 6 segments, or an empty segment, or a wrong admin
space, or an unknown entity tag; and, provided segment 1 parses as an
unsigned integer, also when the tag is a non-Node tag and there are
fewer than 9 segments. -/
theorem C3_structural_failures (s : Str) :
    ((split_keyexpr s '/').length < 6 → Entity.make s = Except.ok none) ∧
    ((∃ p ∈ split_keyexpr s '/', p = []) → Entity.make s = Except.ok none) ∧
    ((split_keyexpr s '/').getD 0 [] ≠ ADMIN_SPACE → Entity.make s = Except.ok none) ∧
    (str_to_entity ((split_keyexpr s '/').getD 3 []) = none → Entity.make s = Except.ok none) ∧
    (∀ t n, str_to_entity ((split_keyexpr s '/').getD 3 []) = some t →
      t ≠ EntityType.Node → stoul ((split_keyexpr s '/').getD 1 []) = Except.ok n →
      (split_keyexpr s '/').length < 9 → Entity.make s = Except.ok none) := by
  unfold Entity.make
  refine ⟨fun h1 => ?_, fun h2 => ?_, fun h3 => ?_, fun h4 => ?_,
    fun t n h5 h6 h7 h8 => ?_⟩
  · unfold Entity.make_parts
    rw [if_pos h1]
  · unfold Entity.make_parts
    by_cases h1 : (split_keyexpr s '/').length < 6
    · rw [if_pos h1]
    · rw [if_neg h1]
      obtain ⟨p, hp1, hp2⟩ := h2
      have hany : (split_keyexpr s '/').any List.isEmpty = true := by
        rw [List.any_eq_true]
        exact ⟨p, hp1, by simp [hp2]⟩
      rw [hany, if_pos rfl]
  · unfold Entity.make_parts
    by_cases h1 : (split_keyexpr s '/').length < 6
    · rw [if_pos h1]
    rw [if_neg h1]
    by_cases h2 : (split_keyexpr s '/').any List.isEmpty = true
    · rw [h2, if_pos rfl]
    rw [if_neg (by simpa using h2), if_pos h3]
  · unfold Entity.make_parts
    by_cases h1 : (split_keyexpr s '/').length < 6
    · rw [if_pos h1]
    rw [if_neg h1]
    by_cases h2 : (split_keyexpr s '/').any List.isEmpty = true
    · rw [h2, if_pos rfl]
    rw [if_neg (by simpa using h2)]
    by_cases h3 : (split_keyexpr s '/').getD 0 [] ≠ ADMIN_SPACE
    · rw [if_pos h3]
    rw [if_neg h3, h4]
  · unfold Entity.make_parts
    by_cases h1 : (split_keyexpr s '/').length < 6
    · rw [if_pos h1]
    rw [if_neg h1]
    by_cases h2 : (split_keyexpr s '/').any List.isEmpty = true
    · rw [h2, if_pos rfl]
    rw [if_neg (by simpa using h2)]
    by_cases h3 : (split_keyexpr s '/').getD 0 [] ≠ ADMIN_SPACE
    · rw [if_pos h3]
    rw [if_neg h3, h5, h7]
    simp [h6, h8]

theorem C3_structural_failures_witness :
    Entity.make "@ros2_lv/0/abc/MP/_/mynode".toList = Except.ok none :=
  (C3_structural_failures "@ros2_lv/0/abc/MP/_/mynode".toList).2.2.2.2
    EntityType.Publisher 0 (by decide) (by decide) (by decide) (by decide)

/-- C7: `keyexpr_to_qos` returns no value whenever the input has fewer
than 3 colon-delimited parts, or the third part has fewer than 2
comma-delimited sub-parts, or the reliability, durability or history
string is not a key of its closed table, or the depth sub-part converts
no characters, has trailing junk, or overflows; and every successful
decode fixes liveliness, its lease duration, deadline and lifespan to
the protocol defaults. -/
theorem C7_qos_decode_failures (s : Str) :
    (((split_keyexpr s QOS_DELIMITER).length < 3 → keyexpr_to_qos s = none) ∧
      ((split_keyexpr ((split_keyexpr s QOS_DELIMITER).getD 2 [])
          QOS_HISTORY_DELIMITER).length < 2 → keyexpr_to_qos s = none) ∧
      (str_to_qos_reliability ((split_keyexpr s QOS_DELIMITER).getD 0 []) = none →
        keyexpr_to_qos s = none) ∧
      (str_to_qos_durability ((split_keyexpr s QOS_DELIMITER).getD 1 []) = none →
        keyexpr_to_qos s = none) ∧
      (str_to_qos_history ((split_keyexpr ((split_keyexpr s QOS_DELIMITER).getD 2 [])
          QOS_HISTORY_DELIMITER).getD 0 []) = none → keyexpr_to_qos s = none) ∧
      ((strtoul10 ((split_keyexpr ((split_keyexpr s QOS_DELIMITER).getD 2 [])
            QOS_HISTORY_DELIMITER).getD 1 [])).consumed = 0 ∨
        (strtoul10 ((split_keyexpr ((split_keyexpr s QOS_DELIMITER).getD 2 [])
            QOS_HISTORY_DELIMITER).getD 1 [])).consumed ≠
          ((split_keyexpr ((split_keyexpr s QOS_DELIMITER).getD 2 [])
            QOS_HISTORY_DELIMITER).getD 1 []).length ∨
        (strtoul10 ((split_keyexpr ((split_keyexpr s QOS_DELIMITER).getD 2 [])
            QOS_HISTORY_DELIMITER).getD 1 [])).erange = true →
        keyexpr_to_qos s = none)) ∧
    (∀ q, keyexpr_to_qos s = some q →
      q.liveliness = RMW_QOS_POLICY_LIVELINESS_AUTOMATIC ∧
        q.liveliness_lease_duration = RMW_QOS_LIVELINESS_LEASE_DURATION_DEFAULT ∧
        q.deadline = RMW_QOS_DEADLINE_DEFAULT ∧ q.lifespan = RMW_QOS_LIFESPAN_DEFAULT) := by
  constructor
  · refine ⟨fun c => ?_, fun c => ?_, fun c => ?_, fun c => ?_, fun c => ?_, fun c => ?_⟩ <;>
      · simp only [keyexpr_to_qos]
        repeat' split
        all_goals try rfl
        all_goals simp_all
  · intro q h
    simp only [keyexpr_to_qos] at h
    repeat' split at h
    all_goals simp only [Option.some.injEq, reduceCtorEq] at h
    all_goals subst h
    all_goals exact ⟨rfl, rfl, rfl, rfl⟩

theorem C7_qos_decode_failures_witness :
    str_to_qos_reliability ((split_keyexpr "99:1:1,5".toList QOS_DELIMITER).getD 0 []) =
      none ∧
    keyexpr_to_qos "99:1:1,5".toList = none :=
  ⟨by decide, (C7_qos_decode_failures "99:1:1,5".toList).1.2.2.1 (by decide)⟩

/-- C10: when all segments are non-empty and segments 0–5 (0–8 for a
non-Node tag) pass every decode check, `Entity::make` succeeds even
with extra trailing segments, and yields exactly the entity obtained
from the first 6 (resp. 9) segments alone. -/
theorem C10_excess_segments_ignored (s : Str) (t : EntityType)
    (hne : ∀ p ∈ split_keyexpr s '/', p ≠ [])
    (h0 : (split_keyexpr s '/').getD 0 [] = ADMIN_SPACE)
    (h3 : str_to_entity ((split_keyexpr s '/').getD 3 []) = some t)
    (hdom : ∃ n, stoul ((split_keyexpr s '/').getD 1 []) = Except.ok n)
    (hlen : (if t = EntityType.Node then 6 else 9) ≤ (split_keyexpr s '/').length)
    (hq : t ≠ EntityType.Node →
      ∃ q, keyexpr_to_qos ((split_keyexpr s '/').getD 8 []) = some q) :
    ∃ e, Entity.make s = Except.ok (some e) ∧
      Entity.make (List.intercalate ['/']
        ((split_keyexpr s '/').take (if t = EntityType.Node then 6 else 9))) =
        Except.ok (some e) := by
  obtain ⟨n, hn⟩ := hdom
  have hsubsplit : ∀ k, k ≠ 0 → k ≤ (split_keyexpr s '/').length →
      split_keyexpr (List.intercalate ['/'] ((split_keyexpr s '/').take k)) '/' =
        (split_keyexpr s '/').take k := by
    intro k hk0 hkl
    apply split_keyexpr_intercalate
    · intro l hl
      exact mem_split_keyexpr_not_delim s '/' l (List.take_subset _ _ hl)
    · intro hemp
      have hl := congrArg List.length hemp
      simp only [List.length_take, List.length_nil] at hl
      omega
  have hgetD : ∀ k i, i < k → ((split_keyexpr s '/').take k).getD i [] =
      (split_keyexpr s '/').getD i [] := by
    intro k i hik
    simp [List.getD_eq_getElem?_getD, List.getElem?_take_of_lt hik]
  by_cases ht : t = EntityType.Node
  · subst ht
    rw [if_pos rfl] at hlen
    rw [if_pos rfl]
    refine ⟨_, make_parts_success_node _ n hlen hne h0 h3 hn, ?_⟩
    unfold Entity.make
    rw [hsubsplit 6 (by omega) hlen,
      make_parts_success_node _ n (by simp [List.length_take]; omega)
        (fun p hp => hne p (List.take_subset _ _ hp))
        (by rw [hgetD 6 0 (by omega)]; exact h0)
        (by rw [hgetD 6 3 (by omega)]; exact h3)
        (by rw [hgetD 6 1 (by omega)]; exact hn),
      hgetD 6 2 (by omega), hgetD 6 4 (by omega), hgetD 6 5 (by omega)]
  · obtain ⟨q, hq'⟩ := hq ht
    rw [if_neg ht] at hlen
    rw [if_neg ht]
    refine ⟨_, make_parts_success_topic _ t n q ht hlen hne h0 h3 hn hq', ?_⟩
    unfold Entity.make
    rw [hsubsplit 9 (by omega) hlen,
      make_parts_success_topic _ t n q ht (by simp [List.length_take]; omega)
        (fun p hp => hne p (List.take_subset _ _ hp))
        (by rw [hgetD 9 0 (by omega)]; exact h0)
        (by rw [hgetD 9 3 (by omega)]; exact h3)
        (by rw [hgetD 9 1 (by omega)]; exact hn)
        (by rw [hgetD 9 8 (by omega)]; exact hq'),
      hgetD 9 2 (by omega), hgetD 9 4 (by omega), hgetD 9 5 (by omega),
      hgetD 9 6 (by omega), hgetD 9 7 (by omega)]

theorem C10_excess_segments_ignored_witness :
    ∃ e, Entity.make "@ros2_lv/0/i/NN/_/n/extra".toList = Except.ok (some e) ∧
      Entity.make (List.intercalate ['/']
        ((split_keyexpr "@ros2_lv/0/i/NN/_/n/extra".toList '/').take
          (if EntityType.Node = EntityType.Node then 6 else 9))) = Except.ok (some e) :=
  C10_excess_segments_ignored "@ros2_lv/0/i/NN/_/n/extra".toList EntityType.Node
    (by decide) (by decide) (by decide) ⟨0, by decide⟩ (by decide)
    (fun h => absurd rfl h)

/-- C1 counterexample: the fact tuple (type Node, id `i`, domain 0,
namespace `x`, node name `n`, no topic info) satisfies the claim's
premises — non-empty namespace and name, no escape character anywhere —
yet decoding the encoded key expression returns an absent result, so no
entity equal to the input facts is recovered. -/
theorem C1_roundtrip_counterexample :
    (("x".toList : Str) ≠ [] ∧ SLASH_REPLACEMENT ∉ ("x".toList : Str) ∧
      ("n".toList : Str) ≠ [] ∧ SLASH_REPLACEMENT ∉ ("n".toList : Str)) ∧
    Entity.make (Entity.construct "i".toList EntityType.Node
      ⟨0, "x".toList, "n".toList, []⟩ none).keyexpr = Except.ok none := by
  constructor
  · exact ⟨by decide, by decide, by decide, by decide⟩
  · decide

/-- C1 (amended): the round-trip law holds for fact tuples that also
satisfy the wire-format constraints: the namespace is `/` or `/`
followed by one non-empty slash-free segment other than `_`; the id is
non-empty and slash-free; the domain id is representable; and, when
topic info is present, the topic name and type are non-empty, the type
is slash-free, the QoS policies come from the closed enum tables and
the depth is representable.  Decoding then recovers the entity exactly,
up to the fixed-default QoS fields and the enclave (which is not
encoded). -/
theorem C1_roundtrip_amended (id : Str) (t : EntityType) (dom : Nat)
    (ns name encl : Str) (ti : Option TopicInfo)
    (hname : name ≠ []) (hname_esc : SLASH_REPLACEMENT ∉ name)
    (hns_esc : SLASH_REPLACEMENT ∉ ns)
    (hns : ns = ['/'] ∨ ∃ tail, ns = '/' :: tail ∧ tail ≠ [] ∧ '/' ∉ tail ∧ tail ≠ ['_'])
    (hid : id ≠ []) (hid_slash : '/' ∉ id)
    (hdom : dom ≤ ULONG_MAX)
    (hti : ti = none ↔ t = EntityType.Node)
    (htopic : ∀ x, ti = some x →
      x.name ≠ [] ∧ SLASH_REPLACEMENT ∉ x.name ∧ x.type ≠ [] ∧ '/' ∉ x.type ∧
        x.qos.reliability ∈ [RMW_QOS_POLICY_RELIABILITY_SYSTEM_DEFAULT,
          RMW_QOS_POLICY_RELIABILITY_RELIABLE, RMW_QOS_POLICY_RELIABILITY_BEST_EFFORT,
          RMW_QOS_POLICY_RELIABILITY_UNKNOWN] ∧
        x.qos.durability ∈ [RMW_QOS_POLICY_DURABILITY_SYSTEM_DEFAULT,
          RMW_QOS_POLICY_DURABILITY_TRANSIENT_LOCAL, RMW_QOS_POLICY_DURABILITY_VOLATILE,
          RMW_QOS_POLICY_DURABILITY_UNKNOWN] ∧
        x.qos.history ∈ [RMW_QOS_POLICY_HISTORY_SYSTEM_DEFAULT,
          RMW_QOS_POLICY_HISTORY_KEEP_LAST, RMW_QOS_POLICY_HISTORY_KEEP_ALL,
          RMW_QOS_POLICY_HISTORY_UNKNOWN] ∧
        x.qos.depth ≤ ULONG_MAX) :
    Entity.make (Entity.construct id t ⟨dom, ns, name, encl⟩ ti).keyexpr =
      Except.ok (some (Entity.construct id t ⟨dom, ns, name, []⟩
        (ti.map fun x => ⟨x.name, x.type, qos_with_defaults x.qos⟩))) := by
  rcases hns with rfl | ⟨tail, rfl, htne, htsl, htus⟩
  · rcases ti with _ | x
    · have ht : t = EntityType.Node := hti.mp rfl
      subst ht
      have hmem : ∀ l ∈ [ADMIN_SPACE, std_to_string dom, id,
          entity_to_str EntityType.Node, ['_'], mangle_name name], '/' ∉ l := by
        intro l hl
        simp only [List.mem_cons, List.not_mem_nil, or_false] at hl
        rcases hl with rfl | rfl | rfl | rfl | rfl | rfl
        · decide
        · exact std_to_string_not_slash dom
        · exact hid_slash
        · exact entity_to_str_not_slash _
        · decide
        · exact mangle_name_not_mem_slash name
      have hnen : ∀ p ∈ [ADMIN_SPACE, std_to_string dom, id,
          entity_to_str EntityType.Node, ['_'], mangle_name name], p ≠ [] := by
        intro p hp
        simp only [List.mem_cons, List.not_mem_nil, or_false] at hp
        rcases hp with rfl | rfl | rfl | rfl | rfl | rfl
        · decide
        · exact std_to_string_ne_nil dom
        · exact hid
        · exact entity_to_str_ne_nil _
        · decide
        · exact mangle_name_ne_nil name hname
      unfold Entity.make
      rw [Entity.construct_keyexpr_root, topic_segments, List.append_nil,
        split_keyexpr_intercalate _ _ hmem (by simp),
        make_parts_success_node _ dom (by simp) hnen rfl
          (str_to_entity_entity_to_str EntityType.Node)
          (stoul_std_to_string dom hdom)]
      simp only [List.getD_cons_zero, List.getD_cons_succ, if_true]
      rw [demangle_name_mangle_name name hname_esc]
      rfl
    · have ht : t ≠ EntityType.Node := fun h => Option.noConfusion (hti.mpr h)
      obtain ⟨htn_ne, htn_esc, htt_ne, htt_slash, hrel, hdur, hhist, hdep⟩ := htopic x rfl
      have hmem : ∀ l ∈ [ADMIN_SPACE, std_to_string dom, id, entity_to_str t, ['_'],
          mangle_name name, mangle_name x.name, x.type, qos_to_keyexpr x.qos], '/' ∉ l := by
        intro l hl
        simp only [List.mem_cons, List.not_mem_nil, or_false] at hl
        rcases hl with rfl | rfl | rfl | rfl | rfl | rfl | rfl | rfl | rfl
        · decide
        · exact std_to_string_not_slash dom
        · exact hid_slash
        · exact entity_to_str_not_slash _
        · decide
        · exact mangle_name_not_mem_slash name
        · exact mangle_name_not_mem_slash x.name
        · exact htt_slash
        · exact qos_to_keyexpr_not_slash x.qos
      have hnen : ∀ p ∈ [ADMIN_SPACE, std_to_string dom, id, entity_to_str t, ['_'],
          mangle_name name, mangle_name x.name, x.type, qos_to_keyexpr x.qos], p ≠ [] := by
        intro p hp
        simp only [List.mem_cons, List.not_mem_nil, or_false] at hp
        rcases hp with rfl | rfl | rfl | rfl | rfl | rfl | rfl | rfl | rfl
        · decide
        · exact std_to_string_ne_nil dom
        · exact hid
        · exact entity_to_str_ne_nil _
        · decide
        · exact mangle_name_ne_nil name hname
        · exact mangle_name_ne_nil x.name htn_ne
        · exact htt_ne
        · exact qos_to_keyexpr_ne_nil x.qos
      unfold Entity.make
      rw [Entity.construct_keyexpr_root, topic_segments]
      simp only [List.cons_append, List.nil_append]
      rw [split_keyexpr_intercalate _ _ hmem (by simp),
        make_parts_success_topic _ t dom (qos_with_defaults x.qos) ht (by simp) hnen rfl
          (str_to_entity_entity_to_str t)
          (stoul_std_to_string dom hdom)
          (keyexpr_to_qos_qos_to_keyexpr x.qos hrel hdur hhist hdep)]
      simp only [List.getD_cons_zero, List.getD_cons_succ, if_true]
      rw [demangle_name_mangle_name name hname_esc,
        demangle_name_mangle_name x.name htn_esc]
      rfl
  · rcases ti with _ | x
    · have ht : t = EntityType.Node := hti.mp rfl
      subst ht
      have hmem : ∀ l ∈ [ADMIN_SPACE, std_to_string dom, id,
          entity_to_str EntityType.Node, tail, mangle_name name], '/' ∉ l := by
        intro l hl
        simp only [List.mem_cons, List.not_mem_nil, or_false] at hl
        rcases hl with rfl | rfl | rfl | rfl | rfl | rfl
        · decide
        · exact std_to_string_not_slash dom
        · exact hid_slash
        · exact entity_to_str_not_slash _
        · exact htsl
        · exact mangle_name_not_mem_slash name
      have hnen : ∀ p ∈ [ADMIN_SPACE, std_to_string dom, id,
          entity_to_str EntityType.Node, tail, mangle_name name], p ≠ [] := by
        intro p hp
        simp only [List.mem_cons, List.not_mem_nil, or_false] at hp
        rcases hp with rfl | rfl | rfl | rfl | rfl | rfl
        · decide
        · exact std_to_string_ne_nil dom
        · exact hid
        · exact entity_to_str_ne_nil _
        · exact htne
        · exact mangle_name_ne_nil name hname
      unfold Entity.make
      rw [Entity.construct_keyexpr_sub _ _ _ _ _ _ _ htne, topic_segments, List.append_nil,
        split_keyexpr_intercalate _ _ hmem (by simp),
        make_parts_success_node _ dom (by simp) hnen rfl
          (str_to_entity_entity_to_str EntityType.Node)
          (stoul_std_to_string dom hdom)]
      simp only [List.getD_cons_zero, List.getD_cons_succ]
      rw [if_neg htus, demangle_name_mangle_name name hname_esc]
      rfl
    · have ht : t ≠ EntityType.Node := fun h => Option.noConfusion (hti.mpr h)
      obtain ⟨htn_ne, htn_esc, htt_ne, htt_slash, hrel, hdur, hhist, hdep⟩ := htopic x rfl
      have hmem : ∀ l ∈ [ADMIN_SPACE, std_to_string dom, id, entity_to_str t, tail,
          mangle_name name, mangle_name x.name, x.type, qos_to_keyexpr x.qos], '/' ∉ l := by
        intro l hl
        simp only [List.mem_cons, List.not_mem_nil, or_false] at hl
        rcases hl with rfl | rfl | rfl | rfl | rfl | rfl | rfl | rfl | rfl
        · decide
        · exact std_to_string_not_slash dom
        · exact hid_slash
        · exact entity_to_str_not_slash _
        · exact htsl
        · exact mangle_name_not_mem_slash name
        · exact mangle_name_not_mem_slash x.name
        · exact htt_slash
        · exact qos_to_keyexpr_not_slash x.qos
      have hnen : ∀ p ∈ [ADMIN_SPACE, std_to_string dom, id, entity_to_str t, tail,
          mangle_name name, mangle_name x.name, x.type, qos_to_keyexpr x.qos], p ≠ [] := by
        intro p hp
        simp only [List.mem_cons, List.not_mem_nil, or_false] at hp
        rcases hp with rfl | rfl | rfl | rfl | rfl | rfl | rfl | rfl | rfl
        · decide
        · exact std_to_string_ne_nil dom
        · exact hid
        · exact entity_to_str_ne_nil _
        · exact htne
        · exact mangle_name_ne_nil name hname
        · exact mangle_name_ne_nil x.name htn_ne
        · exact htt_ne
        · exact qos_to_keyexpr_ne_nil x.qos
      unfold Entity.make
      rw [Entity.construct_keyexpr_sub _ _ _ _ _ _ _ htne, topic_segments]
      simp only [List.cons_append, List.nil_append]
      rw [split_keyexpr_intercalate _ _ hmem (by simp),
        make_parts_success_topic _ t dom (qos_with_defaults x.qos) ht (by simp) hnen rfl
          (str_to_entity_entity_to_str t)
          (stoul_std_to_string dom hdom)
          (keyexpr_to_qos_qos_to_keyexpr x.qos hrel hdur hhist hdep)]
      simp only [List.getD_cons_zero, List.getD_cons_succ]
      rw [if_neg htus, demangle_name_mangle_name name hname_esc,
        demangle_name_mangle_name x.name htn_esc]
      rfl

theorem C1_roundtrip_amended_witness :
    Entity.make (Entity.construct "q1w2".toList EntityType.Publisher
      ⟨0, "/".toList, "talker".toList, []⟩
      (some ⟨"/chatter".toList, "std_msgs::msg::String".toList,
        ⟨2, 10, 2, 1, ⟨0, 0⟩, ⟨0, 0⟩, 1, ⟨0, 0⟩⟩⟩)).keyexpr =
      Except.ok (some (Entity.construct "q1w2".toList EntityType.Publisher
        ⟨0, "/".toList, "talker".toList, []⟩
        (some ⟨"/chatter".toList, "std_msgs::msg::String".toList,
          qos_with_defaults ⟨2, 10, 2, 1, ⟨0, 0⟩, ⟨0, 0⟩, 1, ⟨0, 0⟩⟩⟩))) :=
  C1_roundtrip_amended "q1w2".toList EntityType.Publisher 0 "/".toList "talker".toList
    [] (some ⟨"/chatter".toList, "std_msgs::msg::String".toList,
      ⟨2, 10, 2, 1, ⟨0, 0⟩, ⟨0, 0⟩, 1, ⟨0, 0⟩⟩⟩)
    (by decide) (by decide) (by decide) (Or.inl rfl) (by decide) (by decide) (by decide)
    (by decide)
    (fun x hx => by cases Option.some.inj hx; exact by decide)

end Liveliness
